import Mathlib

set_option linter.unusedVariables false

namespace ComDe

/-! Shallow embedding of the ComDe skill-segmented replay buffer
(comde/rl/buffers/buffers/comde_buffer.py) and the skill-sequencing rollout
loop (comde/evaluations/comde_eval_mlp.py). Observation, action and skill
vectors are abstracted to opaque values of a type parameter; numpy arrays of
per-timestep data become lists; Python slice assignment is modelled with
Python's exact index semantics (negative indices wrap from the end). -/

/-! Fields the buffer requires of every trajectory record
(`MUST_LOADED_COMPONENTS` in comde_buffer.py). -/

def MUST_LOADED_COMPONENTS : Finset String :=
  {"observations", "actions", "skills_idxs", "skills_order", "skills_done",
   "source_skills", "target_skills"}

/-- Field-presence check at the top of `preprocess_h5py_trajectory`:
`assert MUST_LOADED_COMPONENTS <= trajectory.keys(), f"... Please fill
{trajectory.keys() - MUST_LOADED_COMPONENTS}"`.  On failure the reported set
is `keys \ MUST_LOADED_COMPONENTS`, exactly as the source computes it. -/
def preprocessFieldCheck (keys : Finset String) : Except (Finset String) Unit :=
  if MUST_LOADED_COMPONENTS ⊆ keys then Except.ok ()
  else Except.error (keys \ MUST_LOADED_COMPONENTS)

/-- Effective index of a Python slice bound for an array of length `n`:
a negative bound counts from the end (clamped below at 0), a non-negative
bound is clamped above at `n`. -/
def pySliceIdx (n : Nat) (i : Int) : Nat :=
  if i < 0 then ((n : Int) + i).toNat else min i.toNat n

/-- Helper for slice assignment `a[s:e] = 1` once the slice bounds have been
resolved to effective indices `s`, `e`: entry `j` of the list (at absolute
position `i + j`) becomes 1 when `s ≤ i + j < e`, else keeps its value. -/
def sliceSetAux (i s e : Nat) : List Nat → List Nat
  | [] => []
  | x :: xs => (if s ≤ i ∧ i < e then 1 else x) :: sliceSetAux (i + 1) s e xs

/-- Python slice assignment `a[start:stop] = 1` with Python's index
semantics. -/
def sliceSet (a : List Nat) (start stop : Int) : List Nat :=
  sliceSetAux 0 (pySliceIdx a.length start) (pySliceIdx a.length stop) a

/-- Indices where the raw `skills_done` array equals 1
(`np.where(skills_done == 1)[0]`, in ascending order). -/
def doneTimes (a : List Nat) : List Nat :=
  (List.range a.length).filter (fun i => a.getD i 0 = 1)

/-- Dilation radius `n_aug = 4` of the skills_done augmentation. -/
def nAug : Nat := 4

/-- The `skills_done` augmentation of `preprocess_h5py_trajectory`: for every
index `t` where the raw array is 1, execute
`augmented_skills_done[t - n_aug : t + n_aug + 1] = 1` on a copy of the raw
array, with Python slice semantics. -/
def augmentSkillsDone (a : List Nat) : List Nat :=
  (doneTimes a).foldl
    (fun (acc : List Nat) (t : Nat) =>
      sliceSet acc ((t : Int) - nAug) ((t : Int) + nAug + 1)) a

/-- Position of the start of the skill segment containing timestep `i`,
i.e. the value of the loop variable `first_obs_pos` after iteration `i` of
the `for i in range(1, traj_len)` loop: it is reset to `i` whenever
`skills_idxs[i - 1] != skills_idxs[i]` and kept otherwise. -/
def firstObsPos (skillsIdxs : List Nat) : Nat → Nat
  | 0 => 0
  | i + 1 => if skillsIdxs.getD i 0 ≠ skillsIdxs.getD (i + 1) 0 then i + 1
             else firstObsPos skillsIdxs i

/-- The `first_observations` array of `preprocess_h5py_trajectory`:
entry `i` is `observations[first_obs_pos]` where `first_obs_pos` is the
segment start for timestep `i`. -/
def firstObservations {α : Type} [Inhabited α]
    (observations : List α) (skillsIdxs : List Nat) : List α :=
  (List.range observations.length).map
    (fun i => observations.getD (firstObsPos skillsIdxs i) default)

/-- Start-index draw of `_get_samples` for one chosen episode:
`thresh = len(episode) - subseq_len; np.random.randint(0, thresh)`.
`np.random.randint(0, h)` raises when `h ≤ 0` (modelled as `none`) and
otherwise returns a uniform draw from `[0, h)`, modelled by reducing the
random source `r` modulo `h`. -/
def sampleStartIdx (epLen subseqLen : Nat) (r : Nat) : Option Nat :=
  let thresh : Int := (epLen : Int) - (subseqLen : Int)
  if 0 < thresh then some (r % thresh.toNat) else none

/-- Batched start-index draw of `_get_samples`:
`threshes = [len(ep) - subseq_len for ep in episodes];
start_idxs = np.random.randint(0, threshes)`, which raises when any
entry of `threshes` is ≤ 0. -/
def sampleStartIdxs (epLens : List Nat) (subseqLen : Nat) (rands : List Nat) :
    Option (List Nat) :=
  let threshes := epLens.map (fun (l : Nat) => (l : Int) - (subseqLen : Int))
  if threshes.all (fun h => 0 < h) then
    some (List.zipWith (fun h r => r % h.toNat) threshes rands)
  else none

/-! Rollout loop of `evaluate_comde` (comde/evaluations/comde_eval_mlp.py).
The environment is modelled as a pre-recorded sequence of step responses; the
low-level policy, the seq2seq translator and the termination detector are
function parameters.  Rewards are modelled as integers (only their sign and
sum are used). -/

/-- One response of `env.step`: the next observation, the reward, the done
flag, and the info payload. -/
structure EnvResponse (Obs Info : Type) where
  obs : Obs
  reward : Int
  done : Bool
  info : Info
  deriving Repr, DecidableEq

/-- The arrays actually handed to `low_policy.predict` on one iteration:
`observations = input_observations[-1, 0, ...]` (entries of the observation
array passed), `actions = input_actions.reshape(1, -1, action_dim)` (entries
of the action array passed), `skills = input_skills[-1, 0, ...]`, and
`timesteps = input_timesteps.reshape(1, -1)`.  Each field lists the history
entries that the corresponding array contains. -/
structure PolicyInput (Obs Act Skill : Type) where
  observations : List Obs
  actions : List Act
  skills : List Skill
  timesteps : List Nat
  deriving Repr, DecidableEq

/-- Collaborators and configuration of `evaluate_comde` that stay fixed over
the episode.  `n_max_skills = target_skills.shape[1]` is
`targetSkills.length`. -/
structure RolloutParams (Obs Act Skill Info : Type) where
  targetSkills : List Skill
  policy : PolicyInput Obs Act Skill → Act
  terminationPredict : Obs → Obs → Skill → Bool
  terminationPredInterval : Nat
  useOptimalNextSkill : Bool

/-- Mutable state of the rollout loop: the current skill pointer and skill
vector, the timestep counter, the `action` variable (an array holding zero
entries before the first prediction and the latest predicted action after),
`first_obs_of_skill` (set at reset and never reassigned), and the per-episode
history lists. -/
structure RolloutState (Obs Act Skill Info : Type) where
  curSkillPos : Nat
  timestep : Nat
  skill : Skill
  firstObsOfSkill : Obs
  lastActionArr : List Act
  epObservations : List Obs
  epActions : List Act
  epSkills : List Skill
  epTimesteps : List Nat
  epRewards : List Int
  epDones : List Bool
  epInfos : List Info
  deriving Repr

/-- State right after `env.reset()`: skill pointer 0, timestep 0, the history
lists seeded with the reset observation, the first target skill and
timestep 0, and `action = np.zeros((0, action_dim))`. -/
def initState {Obs Act Skill Info : Type} [Inhabited Skill]
    (p : RolloutParams Obs Act Skill Info) (o0 : Obs) :
    RolloutState Obs Act Skill Info :=
  { curSkillPos := 0
    timestep := 0
    skill := p.targetSkills.getD 0 default
    firstObsOfSkill := o0
    lastActionArr := []
    epObservations := [o0]
    epActions := []
    epSkills := [p.targetSkills.getD 0 default]
    epTimesteps := [0]
    epRewards := []
    epDones := []
    epInfos := [] }

/-- The policy inputs built at the top of the loop body:
the observation array passed is `input_observations[-1, 0, ...]` (the most
recent observation only), the action array is `action` (the previous
prediction, empty on the first iteration), the skill array is
`input_skills[-1, 0, ...]` (the most recent skill only), and the timestep
array is `np.array(ep_timesteps)` (the full history). -/
def mkPolicyInput {Obs Act Skill Info : Type} [Inhabited Obs] [Inhabited Skill]
    (s : RolloutState Obs Act Skill Info) : PolicyInput Obs Act Skill :=
  { observations := [(s.epObservations.getLast?).getD default]
    actions := s.lastActionArr
    skills := [(s.epSkills.getLast?).getD default]
    timesteps := s.epTimesteps }

/-- Skill advancement decision of one loop iteration, returning the new
`(cur_skill_pos, skill)` pair.  Oracle mode advances (saturating at
`n_max_skills - 1`) iff `len(ep_rewards) > 0 and ep_rewards[-1] > 0`;
learned mode polls the termination detector when
`(timestep - 1) % termination_pred_interval == 0` (Python modulo, so at
`timestep = 0` the check reads `(-1) % interval`). -/
def advanceSkill {Obs Act Skill Info : Type} [Inhabited Skill]
    (p : RolloutParams Obs Act Skill Info) (s : RolloutState Obs Act Skill Info)
    [Inhabited Obs] : Nat × Skill :=
  let nMax := p.targetSkills.length
  if p.useOptimalNextSkill then
    if !s.epRewards.isEmpty && decide (0 < (s.epRewards.getLast?).getD 0) then
      let np := min (s.curSkillPos + 1) (nMax - 1)
      (np, p.targetSkills.getD np default)
    else (s.curSkillPos, s.skill)
  else
    if ((s.timestep : Int) - 1) % (p.terminationPredInterval : Int) = 0 then
      if p.terminationPredict ((s.epObservations.getLast?).getD default)
          s.firstObsOfSkill s.skill then
        let np := min (s.curSkillPos + 1) (nMax - 1)
        (np, p.targetSkills.getD np default)
      else (s.curSkillPos, s.skill)
    else (s.curSkillPos, s.skill)

/-- One iteration of the `while not done` loop body, given the environment's
response to this iteration's `env.step`: build the policy inputs, decide
skill advancement, predict the next action, step the environment, append the
new observation / skill / timestep / action and record reward, done and
info. -/
def stepOnce {Obs Act Skill Info : Type} [Inhabited Obs] [Inhabited Skill]
    (p : RolloutParams Obs Act Skill Info) (s : RolloutState Obs Act Skill Info)
    (r : EnvResponse Obs Info) : RolloutState Obs Act Skill Info :=
  let input := mkPolicyInput s
  let ps := advanceSkill p s
  let newAction := p.policy input
  { curSkillPos := ps.1
    timestep := s.timestep + 1
    skill := ps.2
    firstObsOfSkill := s.firstObsOfSkill
    lastActionArr := [newAction]
    epObservations := s.epObservations ++ [r.obs]
    epActions := s.epActions ++ [newAction]
    epSkills := s.epSkills ++ [ps.2]
    epTimesteps := s.epTimesteps ++ [s.timestep + 1]
    epRewards := s.epRewards ++ [r.reward]
    epDones := s.epDones ++ [r.done]
    epInfos := s.epInfos ++ [r.info] }

/-- The `while not done` loop, consuming environment responses until the
environment reports done.  The boolean records whether the loop exited
through a done response (it is false only when the response list runs out,
modelling an environment that never terminates within it). -/
def rollout {Obs Act Skill Info : Type} [Inhabited Obs] [Inhabited Skill]
    (p : RolloutParams Obs Act Skill Info) (s : RolloutState Obs Act Skill Info) :
    List (EnvResponse Obs Info) → RolloutState Obs Act Skill Info × Bool
  | [] => (s, false)
  | r :: rest =>
    let s' := stepOnce p s r
    if r.done then (s', true) else rollout p s' rest

/-- The dictionary returned by `evaluate_comde`, with
`"return": sum(ep_rewards)`. -/
structure EvalResult (Obs Act Skill Info : Type) where
  epObservations : List Obs
  epActions : List Act
  epSkills : List Skill
  epTimesteps : List Nat
  epRewards : List Int
  epDones : List Bool
  epInfos : List Info
  ret : Int

/-- Assemble the returned dictionary from the final loop state. -/
def mkResult {Obs Act Skill Info : Type}
    (s : RolloutState Obs Act Skill Info) : EvalResult Obs Act Skill Info :=
  { epObservations := s.epObservations
    epActions := s.epActions
    epSkills := s.epSkills
    epTimesteps := s.epTimesteps
    epRewards := s.epRewards
    epDones := s.epDones
    epInfos := s.epInfos
    ret := s.epRewards.sum }

/-- Whole of `evaluate_comde`: compute
`target_skills = seq2seq.predict(source_skills, language_operator)`, then —
exactly as the source does on the next line — rebind
`target_skills = source_skills` (the line carries a `# Debugging` comment),
and run the rollout loop from the reset observation. -/
def evaluateComde {Obs Act Skill Lang Info : Type} [Inhabited Obs] [Inhabited Skill]
    (seq2seqPredict : List Skill → Lang → List Skill)
    (policy : PolicyInput Obs Act Skill → Act)
    (terminationPredict : Obs → Obs → Skill → Bool)
    (sourceSkills : List Skill) (languageGuidance : Lang)
    (terminationPredInterval : Nat) (useOptimalNextSkill : Bool)
    (o0 : Obs) (responses : List (EnvResponse Obs Info)) :
    EvalResult Obs Act Skill Info × Bool :=
  let targetSkills := seq2seqPredict sourceSkills languageGuidance
  let targetSkills := sourceSkills
  let p : RolloutParams Obs Act Skill Info :=
    { targetSkills := targetSkills
      policy := policy
      terminationPredict := terminationPredict
      terminationPredInterval := terminationPredInterval
      useOptimalNextSkill := useOptimalNextSkill }
  let res := rollout p (initState p o0) responses
  (mkResult res.1, res.2)

/-- Final state of one full evaluation rollout from reset. -/
def finalState {Obs Act Skill Info : Type} [Inhabited Obs] [Inhabited Skill]
    (p : RolloutParams Obs Act Skill Info) (o0 : Obs)
    (rs : List (EnvResponse Obs Info)) : RolloutState Obs Act Skill Info :=
  (rollout p (initState p o0) rs).1

/-- Length relations between the per-step history lists of a rollout state:
observations, skills and timesteps hold one more entry than rewards, while
actions, dones and infos hold exactly as many. -/
def lenInv {Obs Act Skill Info : Type} (s : RolloutState Obs Act Skill Info) : Prop :=
  s.epObservations.length = s.epRewards.length + 1 ∧
  s.epSkills.length = s.epRewards.length + 1 ∧
  s.epTimesteps.length = s.epRewards.length + 1 ∧
  s.epActions.length = s.epRewards.length ∧
  s.epDones.length = s.epRewards.length ∧
  s.epInfos.length = s.epRewards.length

/-- Concrete oracle-mode rollout parameters with a single target skill,
used for concrete evaluations of the loop. -/
def pSingle : RolloutParams Int Int Int Int :=
  { targetSkills := [0]
    policy := fun _ => 0
    terminationPredict := fun _ _ _ => false
    terminationPredInterval := 10
    useOptimalNextSkill := true }

/-- Concrete oracle-mode rollout parameters with five target skills
100..104, for the saturation scenario. -/
def pFive : RolloutParams Int Int Int Int :=
  { targetSkills := [100, 101, 102, 103, 104]
    policy := fun _ => 0
    terminationPredict := fun _ _ _ => false
    terminationPredInterval := 10
    useOptimalNextSkill := true }

/-- Scripted environment returning strictly positive reward every other step
(positive on steps 1, 3, 5, ..., zero on steps 2, 4, 6, ...), never done. -/
def oddResponses (n : Nat) : List (EnvResponse Int Int) :=
  (List.range n).map (fun k => ⟨0, if k % 2 = 0 then 1 else 0, false, 0⟩)

/-! Helper lemmas about the skills_done dilation. -/

theorem sliceSetAux_length (s e : Nat) :
    ∀ (a : List Nat) (i : Nat), (sliceSetAux i s e a).length = a.length
  | [], _ => rfl
  | x :: xs, i => by
    simp only [sliceSetAux, List.length_cons, sliceSetAux_length s e xs (i + 1)]

theorem sliceSetAux_getD (s e : Nat) :
    ∀ (a : List Nat) (i j : Nat),
      (sliceSetAux i s e a).getD j 0 =
        if j < a.length ∧ s ≤ i + j ∧ i + j < e then 1 else a.getD j 0
  | [], i, j => by simp [sliceSetAux]
  | x :: xs, i, 0 => by
    simp only [sliceSetAux, List.getD_cons_zero, List.length_cons]
    by_cases h : s ≤ i ∧ i < e
    · rw [if_pos h, if_pos (by omega)]
    · rw [if_neg h, if_neg (by omega)]
  | x :: xs, i, j + 1 => by
    simp only [sliceSetAux, List.getD_cons_succ, List.length_cons]
    rw [sliceSetAux_getD s e xs (i + 1) j]
    by_cases h : j < xs.length ∧ s ≤ i + 1 + j ∧ i + 1 + j < e
    · rw [if_pos h, if_pos (by omega)]
    · rw [if_neg h, if_neg (by omega)]

theorem sliceSet_length (a : List Nat) (st sp : Int) :
    (sliceSet a st sp).length = a.length :=
  sliceSetAux_length _ _ a 0

theorem sliceSet_getD (a : List Nat) (st sp : Int) (j : Nat) :
    (sliceSet a st sp).getD j 0 =
      if j < a.length ∧ pySliceIdx a.length st ≤ j ∧ j < pySliceIdx a.length sp
      then 1 else a.getD j 0 := by
  simpa using sliceSetAux_getD _ _ a 0 j

theorem augFold_length :
    ∀ (ts : List Nat) (a : List Nat),
      (ts.foldl (fun (acc : List Nat) (t : Nat) => sliceSet acc ((t : Int) - nAug) ((t : Int) + nAug + 1)) a).length
        = a.length
  | [], a => rfl
  | t :: ts, a => by
    rw [List.foldl_cons, augFold_length ts, sliceSet_length]

theorem augFold_getD :
    ∀ (ts : List Nat) (a : List Nat) (j : Nat),
      (ts.foldl (fun (acc : List Nat) (t : Nat) => sliceSet acc ((t : Int) - nAug) ((t : Int) + nAug + 1)) a).getD j 0
        = if ∃ t ∈ ts, j < a.length ∧
              pySliceIdx a.length ((t : Int) - nAug) ≤ j ∧
              j < pySliceIdx a.length ((t : Int) + nAug + 1)
          then 1 else a.getD j 0
  | [], a, j => by simp
  | t :: ts, a, j => by
    rw [List.foldl_cons, augFold_getD ts _ j]
    have hlen : (sliceSet a ((t : Int) - nAug) ((t : Int) + nAug + 1)).length = a.length :=
      sliceSet_length ..
    rw [hlen, sliceSet_getD]
    by_cases hts : ∃ u ∈ ts, j < a.length ∧
        pySliceIdx a.length ((u : Int) - nAug) ≤ j ∧
        j < pySliceIdx a.length ((u : Int) + nAug + 1)
    · rw [if_pos hts, if_pos (by
        obtain ⟨u, hu, h⟩ := hts
        exact ⟨u, List.mem_cons_of_mem _ hu, h⟩)]
    · rw [if_neg hts]
      by_cases hhd : j < a.length ∧
          pySliceIdx a.length ((t : Int) - nAug) ≤ j ∧
          j < pySliceIdx a.length ((t : Int) + nAug + 1)
      · rw [if_pos hhd, if_pos ⟨t, List.mem_cons_self .., hhd⟩]
      · rw [if_neg hhd, if_neg (by
          rintro ⟨u, hu, h⟩
          rcases List.mem_cons.mp hu with rfl | hu
          · exact hhd h
          · exact hts ⟨u, hu, h⟩)]

theorem augmentSkillsDone_length (a : List Nat) :
    (augmentSkillsDone a).length = a.length := by
  unfold augmentSkillsDone
  exact augFold_length ..

theorem augmentSkillsDone_getD (a : List Nat) (j : Nat) :
    (augmentSkillsDone a).getD j 0
      = if ∃ t ∈ doneTimes a, j < a.length ∧
            pySliceIdx a.length ((t : Int) - nAug) ≤ j ∧
            j < pySliceIdx a.length ((t : Int) + nAug + 1)
        then 1 else a.getD j 0 := by
  unfold augmentSkillsDone
  exact augFold_getD ..

theorem mem_doneTimes (a : List Nat) (t : Nat) :
    t ∈ doneTimes a ↔ t < a.length ∧ a.getD t 0 = 1 := by
  simp [doneTimes, List.mem_filter, List.mem_range]

theorem augmentSkillsDone_preserves_one (a : List Nat) (j : Nat)
    (h : a.getD j 0 = 1) : (augmentSkillsDone a).getD j 0 = 1 := by
  rw [augmentSkillsDone_getD]
  split
  · rfl
  · exact h

/-- Claim C9: for a skills_done array of length L that is 0 everywhere except
a single 1 at index k with 4 ≤ k ≤ L - 5, the augmented skills_done produced
during ingestion is 1 exactly on the indices k-4 through k+4 inclusive and 0
at every other index. -/
theorem augment_single_one_exact_window (L k : Nat) (a : List Nat)
    (hL : a.length = L) (hk : 4 ≤ k) (hkL : k + 5 ≤ L)
    (ha : ∀ i, i < L → a.getD i 0 = if i = k then 1 else 0) :
    (augmentSkillsDone a).length = L ∧
    ∀ i, (augmentSkillsDone a).getD i 0 = if k - 4 ≤ i ∧ i ≤ k + 4 then 1 else 0 := by
  refine ⟨by rw [augmentSkillsDone_length, hL], fun i => ?_⟩
  have hdt : ∀ t, t ∈ doneTimes a ↔ t = k := by
    intro t
    rw [mem_doneTimes]
    constructor
    · rintro ⟨h1, h2⟩
      rw [hL] at h1
      rw [ha t h1] at h2
      by_contra hne
      rw [if_neg hne] at h2
      exact one_ne_zero h2.symm
    · rintro rfl
      exact ⟨by omega, by rw [ha _ (by omega), if_pos rfl]⟩
  rw [augmentSkillsDone_getD]
  have hex : (∃ t ∈ doneTimes a, i < a.length ∧
        pySliceIdx a.length ((t : Int) - nAug) ≤ i ∧
        i < pySliceIdx a.length ((t : Int) + nAug + 1)) ↔
      (i < a.length ∧ pySliceIdx a.length ((k : Int) - nAug) ≤ i ∧
        i < pySliceIdx a.length ((k : Int) + nAug + 1)) := by
    constructor
    · rintro ⟨t, ht, h⟩
      rw [hdt] at ht
      subst ht
      exact h
    · intro h
      exact ⟨k, (hdt k).mpr rfl, h⟩
  simp only [hex]
  have hs : pySliceIdx a.length ((k : Int) - nAug) = k - 4 := by
    simp only [pySliceIdx, nAug]
    rw [if_neg (by omega)]
    omega
  have he : pySliceIdx a.length ((k : Int) + nAug + 1) = k + 5 := by
    simp only [pySliceIdx, nAug]
    rw [if_neg (by omega)]
    omega
  rw [hs, he]
  by_cases hw : k - 4 ≤ i ∧ i ≤ k + 4
  · rw [if_pos hw, if_pos (by omega)]
  · rw [if_neg hw, if_neg (by omega)]
    by_cases hi : i < L
    · rw [ha i hi, if_neg (by omega)]
    · exact List.getD_eq_default _ _ (by omega)

/-- Claim C9 witness: the array of length 12 with a single 1 at index 5 is
augmented to 1 exactly on indices 1 through 9. -/
theorem augment_single_one_exact_window_witness :
    (augmentSkillsDone [0, 0, 0, 0, 0, 1, 0, 0, 0, 0, 0, 0]).length = 12 ∧
    (augmentSkillsDone [0, 0, 0, 0, 0, 1, 0, 0, 0, 0, 0, 0]).getD 9 0 = 1 ∧
    (augmentSkillsDone [0, 0, 0, 0, 0, 1, 0, 0, 0, 0, 0, 0]).getD 10 0 = 0 ∧
    (augmentSkillsDone [0, 0, 0, 0, 0, 1, 0, 0, 0, 0, 0, 0]).getD 0 0 = 0 := by
  have h := augment_single_one_exact_window 12 5 [0, 0, 0, 0, 0, 1, 0, 0, 0, 0, 0, 0]
    (by decide) (by decide) (by decide) (by decide)
  refine ⟨h.1, ?_, ?_, ?_⟩
  · rw [h.2 9]; decide
  · rw [h.2 10]; decide
  · rw [h.2 0]; decide

/-- Claim C3 (code-bug evaluation): for skills_done with a single 1 at index
0 and length 10, the claim demands the window [0, 4] become all 1, but the
code's slice `[0 - 4 : 0 + 5]` resolves under Python index semantics to the
empty range [6, 5) instead of clipping to [0, 5), so the array is returned
unchanged and index 1 stays 0. -/
theorem augment_misses_left_window_at_low_index :
    augmentSkillsDone [1, 0, 0, 0, 0, 0, 0, 0, 0, 0]
      = [1, 0, 0, 0, 0, 0, 0, 0, 0, 0] ∧
    (augmentSkillsDone [1, 0, 0, 0, 0, 0, 0, 0, 0, 0]).getD 1 0 = 0 := by
  decide

/-- Claim C5 counterexample: applying the augmentation twice to the binary
array with a single 1 at index 8 (length 20) does not equal applying it once
— the second application dilates the first one's window outward again (once:
1 on [4, 12]; twice: 1 on [0, 16]). -/
theorem augment_not_idempotent :
    augmentSkillsDone (augmentSkillsDone
      [0, 0, 0, 0, 0, 0, 0, 0, 1, 0, 0, 0, 0, 0, 0, 0, 0, 0, 0, 0]) ≠
    augmentSkillsDone
      [0, 0, 0, 0, 0, 0, 0, 0, 1, 0, 0, 0, 0, 0, 0, 0, 0, 0, 0, 0] := by
  decide

/-- Claim C5 (amended): a second application of the skills_done augmentation
preserves every 1 present in the output of the first (the augmentation only
ever turns entries to 1, never off), though it may turn on additional
entries; full idempotence fails. -/
theorem augment_twice_preserves_ones (a : List Nat) (i : Nat)
    (h : (augmentSkillsDone a).getD i 0 = 1) :
    (augmentSkillsDone (augmentSkillsDone a)).getD i 0 = 1 :=
  augmentSkillsDone_preserves_one _ _ h

/-- Claim C5 witness: concrete instance of the preservation property. -/
theorem augment_twice_preserves_ones_witness :
    (augmentSkillsDone [1, 0, 0, 0, 0, 0]).getD 0 0 = 1 ∧
    (augmentSkillsDone (augmentSkillsDone [1, 0, 0, 0, 0, 0])).getD 0 0 = 1 :=
  ⟨by decide, augment_twice_preserves_ones [1, 0, 0, 0, 0, 0] 0 (by decide)⟩

/-! First-observation segmentation (claim C8). -/

theorem firstObservations_getD {α : Type} [Inhabited α]
    (observations : List α) (skillsIdxs : List Nat) (i : Nat)
    (h : i < observations.length) :
    (firstObservations observations skillsIdxs).getD i default
      = observations.getD (firstObsPos skillsIdxs i) default := by
  unfold firstObservations
  rw [List.getD_eq_getElem _ _ (by simpa using h)]
  simp

/-- Claim C8: the derived first_observations array has first entry
observations[0]; within a skill segment (skills_idxs unchanged from the
previous timestep) each entry repeats the previous one, and at a segment
boundary (skills_idxs changed) the entry is the current observation. -/
theorem first_observations_segment (α : Type) [Inhabited α]
    (observations : List α) (skillsIdxs : List Nat) :
    (firstObservations observations skillsIdxs).getD 0 default
        = observations.getD 0 default ∧
    (∀ i, 0 < i → i < observations.length →
      skillsIdxs.getD i 0 = skillsIdxs.getD (i - 1) 0 →
      (firstObservations observations skillsIdxs).getD i default
        = (firstObservations observations skillsIdxs).getD (i - 1) default) ∧
    (∀ i, 0 < i → i < observations.length →
      skillsIdxs.getD i 0 ≠ skillsIdxs.getD (i - 1) 0 →
      (firstObservations observations skillsIdxs).getD i default
        = observations.getD i default) := by
  refine ⟨?_, ?_, ?_⟩
  · match observations with
    | [] => rfl
    | o :: os =>
      rw [firstObservations_getD _ _ 0 (by simp)]
      rfl
  · intro i hi hlen heq
    obtain ⟨j, rfl⟩ : ∃ j, i = j + 1 := ⟨i - 1, by omega⟩
    simp only [Nat.add_sub_cancel] at heq ⊢
    rw [firstObservations_getD _ _ (j + 1) hlen,
        firstObservations_getD _ _ j (by omega)]
    have hpos : firstObsPos skillsIdxs (j + 1) = firstObsPos skillsIdxs j := by
      simp only [firstObsPos]
      exact if_neg (fun hne => hne heq.symm)
    rw [hpos]
  · intro i hi hlen hne
    obtain ⟨j, rfl⟩ : ∃ j, i = j + 1 := ⟨i - 1, by omega⟩
    simp only [Nat.add_sub_cancel] at hne ⊢
    rw [firstObservations_getD _ _ (j + 1) hlen]
    have hpos : firstObsPos skillsIdxs (j + 1) = j + 1 := by
      simp only [firstObsPos]
      exact if_pos (fun hx => hne hx.symm)
    rw [hpos]

/-- Claim C8 witness: observations [10,11,12,13,14] with skills_idxs
[7,7,8,8,7] yield first_observations [10,10,12,12,14]. -/
theorem first_observations_segment_witness :
    (firstObservations ([10, 11, 12, 13, 14] : List Int) [7, 7, 8, 8, 7]).getD 0 default
        = ([10, 11, 12, 13, 14] : List Int).getD 0 default ∧
    (firstObservations ([10, 11, 12, 13, 14] : List Int) [7, 7, 8, 8, 7]).getD 1 default
        = (firstObservations ([10, 11, 12, 13, 14] : List Int) [7, 7, 8, 8, 7]).getD 0 default ∧
    (firstObservations ([10, 11, 12, 13, 14] : List Int) [7, 7, 8, 8, 7]).getD 2 default
        = ([10, 11, 12, 13, 14] : List Int).getD 2 default := by
  have h := first_observations_segment Int [10, 11, 12, 13, 14] [7, 7, 8, 8, 7]
  exact ⟨h.1, h.2.1 1 (by decide) (by decide) (by decide),
         h.2.2 2 (by decide) (by decide) (by decide)⟩

/-! Sampling bounds (claim C4). -/

/-- Claim C4 counterexample: an episode whose length equals subseq_len is
claimed to be sampled successfully with start index 0, but the code's
`np.random.randint(0, len - subseq_len)` raises on the zero threshold. -/
theorem sample_start_at_equal_length_fails :
    sampleStartIdxs [3] 3 [0] = none ∧ sampleStartIdx 3 3 0 = none := by
  decide

/-- Claim C4 (amended): the draw fails iff some sampled episode has
`len(episode) - subseq_len ≤ 0` (so equality of lengths already fails), and
otherwise each start index is drawn uniformly from the half-open range
`[0, len(episode) - subseq_len)` — the offset `len - subseq_len` itself is
never drawn, and every smaller offset can be. -/
theorem sample_start_bounds :
    (∀ (epLens : List Nat) (subseqLen : Nat) (rands : List Nat),
      sampleStartIdxs epLens subseqLen rands = none ↔
        ∃ L ∈ epLens, L ≤ subseqLen) ∧
    (∀ (epLen subseqLen r : Nat), subseqLen < epLen →
      (sampleStartIdx epLen subseqLen r).isSome = true ∧
      ∀ s, sampleStartIdx epLen subseqLen r = some s → s < epLen - subseqLen) ∧
    (∀ (epLen subseqLen s : Nat), subseqLen < epLen → s < epLen - subseqLen →
      sampleStartIdx epLen subseqLen s = some s) := by
  have htoNat : ∀ (a b : Nat), ((a : Int) - (b : Int)).toNat = a - b := by
    intro a b; omega
  refine ⟨fun epLens subseqLen rands => ?_, fun epLen subseqLen r h => ?_,
          fun epLen subseqLen s h hs => ?_⟩
  · unfold sampleStartIdxs
    by_cases hall : ∀ L ∈ epLens, subseqLen < L
    · rw [if_pos ?hp]
      case hp =>
        rw [List.all_eq_true]
        intro x hx
        rw [List.mem_map] at hx
        obtain ⟨L, hL, rfl⟩ := hx
        have := hall L hL
        simp only [decide_eq_true_eq]
        omega
      constructor
      · intro hx
        exact absurd hx (by simp)
      · rintro ⟨L, hL, hle⟩
        exact absurd (hall L hL) (by omega)
    · rw [if_neg ?hn]
      case hn =>
        push_neg at hall
        obtain ⟨L, hL, hle⟩ := hall
        rw [List.all_eq_true]
        intro hforall
        have := hforall _ (List.mem_map.mpr ⟨L, hL, rfl⟩)
        simp only [decide_eq_true_eq] at this
        omega
      push_neg at hall
      obtain ⟨L, hL, hle⟩ := hall
      exact iff_of_true rfl ⟨L, hL, by omega⟩
  · unfold sampleStartIdx
    rw [if_pos (by omega)]
    refine ⟨rfl, fun s hs => ?_⟩
    have hlt : r % ((epLen : Int) - (subseqLen : Int)).toNat < epLen - subseqLen := by
      rw [htoNat]
      exact Nat.mod_lt _ (by omega)
    rw [Option.some_inj] at hs
    omega
  · unfold sampleStartIdx
    rw [if_pos (by omega)]
    rw [Option.some_inj, htoNat]
    exact Nat.mod_eq_of_lt hs

/-- Claim C4 witness: concrete instances of the amended sampling bounds. -/
theorem sample_start_bounds_witness :
    sampleStartIdxs [3] 4 [0] = none ∧
    (sampleStartIdx 10 3 13).isSome = true ∧
    (6 : Nat) < 10 - 3 ∧
    sampleStartIdx 10 3 6 = some 6 := by
  have h := sample_start_bounds
  exact ⟨(h.1 [3] 4 [0]).mpr ⟨3, by decide, by decide⟩,
         (h.2.1 10 3 13 (by decide)).1,
         (h.2.1 10 3 13 (by decide)).2 6 (by decide),
         h.2.2 10 3 6 (by decide) (by decide)⟩

/-! Required-field check (claim C6). -/

/-- Claim C6 (code-bug evaluation): the ingestion check fails exactly when
some required field is missing, but the set in the raised message is
`keys \ MUST_LOADED_COMPONENTS` (present non-required fields), not the
missing required fields: a record holding every required field except
target_skills is rejected with the empty set in its message, while the
actually missing set is {target_skills}. -/
theorem field_check_reports_wrong_set :
    preprocessFieldCheck (MUST_LOADED_COMPONENTS \ {"target_skills"})
        = Except.error ∅ ∧
    MUST_LOADED_COMPONENTS \ (MUST_LOADED_COMPONENTS \ {"target_skills"})
        = {"target_skills"} ∧
    preprocessFieldCheck MUST_LOADED_COMPONENTS = Except.ok () ∧
    ∀ keys : Finset String,
      preprocessFieldCheck keys = Except.ok () ↔ MUST_LOADED_COMPONENTS ⊆ keys := by
  refine ⟨?_, by decide, ?_, ?_⟩
  · unfold preprocessFieldCheck
    rw [if_neg (by decide)]
    congr 1
  · unfold preprocessFieldCheck
    rw [if_pos (Finset.Subset.refl _)]
  · intro keys
    unfold preprocessFieldCheck
    by_cases hk : MUST_LOADED_COMPONENTS ⊆ keys
    · rw [if_pos hk]
      exact iff_of_true rfl hk
    · rw [if_neg hk]
      exact iff_of_false (fun hx => Except.noConfusion hx) hk

/-! Helper lemmas about the rollout loop. -/

theorem stepOnce_epRewards_length {O A S I : Type} [Inhabited O] [Inhabited S]
    (p : RolloutParams O A S I) (s : RolloutState O A S I) (r : EnvResponse O I) :
    (stepOnce p s r).epRewards.length = s.epRewards.length + 1 := by
  simp [stepOnce]

theorem stepOnce_lenInv {O A S I : Type} [Inhabited O] [Inhabited S]
    (p : RolloutParams O A S I) (s : RolloutState O A S I) (r : EnvResponse O I)
    (h : lenInv s) : lenInv (stepOnce p s r) := by
  obtain ⟨h1, h2, h3, h4, h5, h6⟩ := h
  simp [stepOnce, lenInv, h1, h2, h3, h4, h5, h6]

theorem initState_lenInv {O A S I : Type} [Inhabited O] [Inhabited S]
    (p : RolloutParams O A S I) (o0 : O) : lenInv (@initState O A S I _ p o0) := by
  simp [initState, lenInv]

theorem rollout_done_lenInv {O A S I : Type} [Inhabited O] [Inhabited S]
    (p : RolloutParams O A S I) :
    ∀ (rs : List (EnvResponse O I)) (s : RolloutState O A S I),
      lenInv s → (rollout p s rs).2 = true →
      lenInv (rollout p s rs).1 ∧
        s.epRewards.length < (rollout p s rs).1.epRewards.length
  | [], s => by
    intro h hdone
    simp [rollout] at hdone
  | r :: rest, s => by
    intro h hdone
    simp only [rollout] at hdone ⊢
    by_cases hd : r.done = true
    · rw [if_pos hd] at hdone ⊢
      refine ⟨stepOnce_lenInv p s r h, ?_⟩
      show s.epRewards.length < (stepOnce p s r).epRewards.length
      rw [stepOnce_epRewards_length]
      omega
    · rw [if_neg hd] at hdone ⊢
      have ih := rollout_done_lenInv p rest (stepOnce p s r)
        (stepOnce_lenInv p s r h) hdone
      refine ⟨ih.1, ?_⟩
      have := stepOnce_epRewards_length p s r
      omega

theorem stepOnce_curSkillPos_cases {O A S I : Type} [Inhabited O] [Inhabited S]
    (p : RolloutParams O A S I) (s : RolloutState O A S I) (r : EnvResponse O I) :
    (stepOnce p s r).curSkillPos = s.curSkillPos ∨
    (stepOnce p s r).curSkillPos
      = min (s.curSkillPos + 1) (p.targetSkills.length - 1) := by
  simp only [stepOnce, advanceSkill]
  split_ifs <;> simp

theorem foldl_pos_le {O A S I : Type} [Inhabited O] [Inhabited S]
    (p : RolloutParams O A S I) :
    ∀ (rs : List (EnvResponse O I)) (s : RolloutState O A S I),
      s.curSkillPos ≤ p.targetSkills.length - 1 →
      (rs.foldl (stepOnce p) s).curSkillPos ≤ p.targetSkills.length - 1
  | [], s => fun h => h
  | r :: rest, s => fun h => by
    rw [List.foldl_cons]
    refine foldl_pos_le p rest (stepOnce p s r) ?_
    rcases stepOnce_curSkillPos_cases p s r with hc | hc <;> rw [hc] <;> omega

theorem foldl_pos_saturated {O A S I : Type} [Inhabited O] [Inhabited S]
    (p : RolloutParams O A S I) :
    ∀ (rs : List (EnvResponse O I)) (s : RolloutState O A S I),
      s.curSkillPos = p.targetSkills.length - 1 →
      (rs.foldl (stepOnce p) s).curSkillPos = p.targetSkills.length - 1
  | [], s => fun h => h
  | r :: rest, s => fun h => by
    rw [List.foldl_cons]
    refine foldl_pos_saturated p rest (stepOnce p s r) ?_
    rcases stepOnce_curSkillPos_cases p s r with hc | hc <;> rw [hc] <;> omega

theorem stepOnce_oracle_pos {O A S I : Type} [Inhabited O] [Inhabited S]
    (p : RolloutParams O A S I) (s : RolloutState O A S I) (r : EnvResponse O I)
    (hopt : p.useOptimalNextSkill = true) :
    (stepOnce p s r).curSkillPos =
      if s.epRewards ≠ [] ∧ 0 < (s.epRewards.getLast?).getD 0
      then min (s.curSkillPos + 1) (p.targetSkills.length - 1)
      else s.curSkillPos := by
  have hcond : ((!s.epRewards.isEmpty && decide (0 < (s.epRewards.getLast?).getD 0)) = true)
      ↔ (s.epRewards ≠ [] ∧ 0 < (s.epRewards.getLast?).getD 0) := by
    simp [List.isEmpty_iff]
  simp only [stepOnce, advanceSkill, hopt, if_true]
  by_cases hc : s.epRewards ≠ [] ∧ 0 < (s.epRewards.getLast?).getD 0
  · rw [if_pos hc, if_pos (hcond.mpr hc)]
  · rw [if_neg hc, if_neg (fun hx => hc (hcond.mp hx))]

theorem foldl_epTimesteps_length {O A S I : Type} [Inhabited O] [Inhabited S]
    (p : RolloutParams O A S I) :
    ∀ (rs : List (EnvResponse O I)) (s : RolloutState O A S I),
      ((rs.foldl (stepOnce p) s).epTimesteps).length = s.epTimesteps.length + rs.length
  | [], s => rfl
  | r :: rest, s => by
    rw [List.foldl_cons, foldl_epTimesteps_length p rest]
    simp [stepOnce]
    omega

theorem foldl_lastActionArr_length {O A S I : Type} [Inhabited O] [Inhabited S]
    (p : RolloutParams O A S I) :
    ∀ (rs : List (EnvResponse O I)) (s : RolloutState O A S I), rs ≠ [] →
      ((rs.foldl (stepOnce p) s).lastActionArr).length = 1
  | [], _ => fun h => absurd rfl h
  | r :: rest, s => fun _ => by
    rw [List.foldl_cons]
    by_cases hr : rest = []
    · subst hr
      simp [stepOnce]
    · exact foldl_lastActionArr_length p rest (stepOnce p s r) hr

/-- Claim C10: when the rollout returns (the environment reported done), the
observation, skill and timestep histories hold N + 1 entries and the action,
reward, done and info histories hold N entries, where N ≥ 1 is the number of
environment steps taken, and the returned "return" equals the sum of the
reward history. -/
theorem rollout_history_lengths {O A S I : Type} [Inhabited O] [Inhabited S]
    (p : RolloutParams O A S I) (o0 : O) (rs : List (EnvResponse O I))
    (h : (rollout p (initState p o0) rs).2 = true) :
    1 ≤ (finalState p o0 rs).epRewards.length ∧
    (finalState p o0 rs).epObservations.length
        = (finalState p o0 rs).epRewards.length + 1 ∧
    (finalState p o0 rs).epSkills.length
        = (finalState p o0 rs).epRewards.length + 1 ∧
    (finalState p o0 rs).epTimesteps.length
        = (finalState p o0 rs).epRewards.length + 1 ∧
    (finalState p o0 rs).epActions.length = (finalState p o0 rs).epRewards.length ∧
    (finalState p o0 rs).epDones.length = (finalState p o0 rs).epRewards.length ∧
    (finalState p o0 rs).epInfos.length = (finalState p o0 rs).epRewards.length ∧
    (mkResult (finalState p o0 rs)).ret = (finalState p o0 rs).epRewards.sum := by
  have hm := rollout_done_lenInv p rs (initState p o0) (initState_lenInv p o0) h
  obtain ⟨⟨h1, h2, h3, h4, h5, h6⟩, hgt⟩ := hm
  have hinit : (@initState O A S I _ p o0).epRewards.length = 0 := rfl
  unfold finalState
  exact ⟨by omega, h1, h2, h3, h4, h5, h6, rfl⟩

/-- Claim C10 witness: a one-step episode ending in done. -/
theorem rollout_history_lengths_witness :
    1 ≤ (finalState pSingle (5 : Int) [⟨7, 1, true, 0⟩]).epRewards.length ∧
    (finalState pSingle (5 : Int) [⟨7, 1, true, 0⟩]).epObservations.length
        = (finalState pSingle (5 : Int) [⟨7, 1, true, 0⟩]).epRewards.length + 1 ∧
    (finalState pSingle (5 : Int) [⟨7, 1, true, 0⟩]).epSkills.length
        = (finalState pSingle (5 : Int) [⟨7, 1, true, 0⟩]).epRewards.length + 1 ∧
    (finalState pSingle (5 : Int) [⟨7, 1, true, 0⟩]).epTimesteps.length
        = (finalState pSingle (5 : Int) [⟨7, 1, true, 0⟩]).epRewards.length + 1 ∧
    (finalState pSingle (5 : Int) [⟨7, 1, true, 0⟩]).epActions.length
        = (finalState pSingle (5 : Int) [⟨7, 1, true, 0⟩]).epRewards.length ∧
    (finalState pSingle (5 : Int) [⟨7, 1, true, 0⟩]).epDones.length
        = (finalState pSingle (5 : Int) [⟨7, 1, true, 0⟩]).epRewards.length ∧
    (finalState pSingle (5 : Int) [⟨7, 1, true, 0⟩]).epInfos.length
        = (finalState pSingle (5 : Int) [⟨7, 1, true, 0⟩]).epRewards.length ∧
    (mkResult (finalState pSingle (5 : Int) [⟨7, 1, true, 0⟩])).ret
        = (finalState pSingle (5 : Int) [⟨7, 1, true, 0⟩]).epRewards.sum :=
  rollout_history_lengths pSingle 5 [⟨7, 1, true, 0⟩] rfl

/-- Claim C7: in oracle mode the skill index advances by one iff at least one
step has been taken and the previous step's reward was strictly positive,
saturating at n_max_skills - 1; with 5 target skills and strictly positive
reward every other step, the index trace over the first 9 steps is
0,0,1,1,2,2,3,3,4,4 (exactly 4 advances), the index then stays 4 for every
continuation of the episode; and in every run it never exceeds
n_max_skills - 1. -/
theorem oracle_skill_advancement :
    (∀ (O A S I : Type) [Inhabited O] [Inhabited S]
       (p : RolloutParams O A S I) (s : RolloutState O A S I)
       (r : EnvResponse O I),
      p.useOptimalNextSkill = true →
      (stepOnce p s r).curSkillPos =
        if s.epRewards ≠ [] ∧ 0 < (s.epRewards.getLast?).getD 0
        then min (s.curSkillPos + 1) (p.targetSkills.length - 1)
        else s.curSkillPos) ∧
    ((List.range 10).map
        (fun k => ((oddResponses k).foldl (stepOnce pFive) (initState pFive 0)).curSkillPos)
      = [0, 0, 1, 1, 2, 2, 3, 3, 4, 4] ∧
     ∀ extra : List (EnvResponse Int Int),
       ((oddResponses 9 ++ extra).foldl (stepOnce pFive) (initState pFive 0)).curSkillPos
         = 4) ∧
    (∀ (O A S I : Type) [Inhabited O] [Inhabited S]
       (p : RolloutParams O A S I) (o0 : O) (rs : List (EnvResponse O I)),
      (rs.foldl (stepOnce p) (initState p o0)).curSkillPos
        ≤ p.targetSkills.length - 1) := by
  refine ⟨?_, ⟨by decide, ?_⟩, ?_⟩
  · intro O A S I _ _ p s r hopt
    exact stepOnce_oracle_pos p s r hopt
  · intro extra
    rw [List.foldl_append]
    have hsat := foldl_pos_saturated pFive extra
      ((oddResponses 9).foldl (stepOnce pFive) (initState pFive 0)) (by decide)
    rw [hsat]
    decide
  · intro O A S I _ _ p o0 rs
    exact foldl_pos_le p rs (initState p o0) (Nat.zero_le _)

/-- Claim C7 witness: first iteration of the loop (no rewards yet) keeps the
skill index at 0. -/
theorem oracle_skill_advancement_witness :
    (stepOnce pSingle (initState pSingle (0 : Int)) ⟨0, 1, false, 0⟩).curSkillPos = 0 := by
  have h := oracle_skill_advancement.1 Int Int Int Int pSingle
    (initState pSingle (0 : Int)) ⟨0, 1, false, 0⟩ rfl
  rw [h]
  decide

/-- Claim C2 counterexample: after one environment step the observation
history holds two entries, but the observation input handed to
low_policy.predict holds only the most recent one — the inputs are not the
full accumulated history. -/
theorem policy_input_not_full_history :
    (mkPolicyInput (stepOnce pSingle (initState pSingle (5 : Int))
        ⟨7, 1, false, 0⟩)).observations
      ≠ (stepOnce pSingle (initState pSingle (5 : Int))
        ⟨7, 1, false, 0⟩).epObservations := by
  decide

/-- Claim C2 (amended): on every iteration the timestep input passed to
low_policy.predict is the full accumulated timestep history (its length grows
by one each step), while the observation and skill inputs hold exactly one
entry — the most recent observation and skill — and the action input holds at
most one entry (none on the first iteration, the latest action after). -/
theorem policy_input_recent_entries_only :
    ∀ (O A S I : Type) [Inhabited O] [Inhabited S]
      (p : RolloutParams O A S I) (o0 : O) (rs : List (EnvResponse O I)),
      (mkPolicyInput (rs.foldl (stepOnce p) (initState p o0))).timesteps
          = (rs.foldl (stepOnce p) (initState p o0)).epTimesteps ∧
      (mkPolicyInput (rs.foldl (stepOnce p) (initState p o0))).timesteps.length
          = rs.length + 1 ∧
      (mkPolicyInput (rs.foldl (stepOnce p) (initState p o0))).observations
          = [((rs.foldl (stepOnce p) (initState p o0)).epObservations.getLast?).getD
              default] ∧
      (mkPolicyInput (rs.foldl (stepOnce p) (initState p o0))).observations.length
          = 1 ∧
      (mkPolicyInput (rs.foldl (stepOnce p) (initState p o0))).skills.length = 1 ∧
      (mkPolicyInput (rs.foldl (stepOnce p) (initState p o0))).actions.length
          = if rs.isEmpty then 0 else 1 := by
  intro O A S I _ _ p o0 rs
  refine ⟨rfl, ?_, rfl, rfl, rfl, ?_⟩
  · show ((rs.foldl (stepOnce p) (initState p o0)).epTimesteps).length = rs.length + 1
    rw [foldl_epTimesteps_length]
    show 1 + rs.length = rs.length + 1
    omega
  · show ((rs.foldl (stepOnce p) (initState p o0)).lastActionArr).length
        = if rs.isEmpty then 0 else 1
    match rs with
    | [] => rfl
    | r :: rest =>
      rw [if_neg (by simp)]
      exact foldl_lastActionArr_length p (r :: rest) _ (by simp)

/-- Claim C1 (code-bug evaluation): the executed skill sequence is
source_skills, not the seq2seq translator's prediction — `evaluate_comde`
rebinds `target_skills = source_skills` right after calling predict, so the
whole evaluation is independent of the translator, and a run with
source_skills [3] and a translator predicting [9] records only skill 3 in the
executed history. -/
theorem rollout_ignores_predicted_target_skills :
    (∀ (O A S L I : Type) [Inhabited O] [Inhabited S]
       (predict1 predict2 : List S → L → List S)
       (policy : PolicyInput O A S → A)
       (term : O → O → S → Bool)
       (src : List S) (lang : L) (interval : Nat) (opt : Bool) (o0 : O)
       (rs : List (EnvResponse O I)),
      evaluateComde predict1 policy term src lang interval opt o0 rs
        = evaluateComde predict2 policy term src lang interval opt o0 rs) ∧
    ((@evaluateComde Int Int Int Int Int _ _ (fun _ _ => [9]) (fun _ => 0)
        (fun _ _ _ => false) [3] 0 10 true 5 [⟨7, 1, true, 0⟩]).1.epSkills
      = [3, 3]) ∧
    ((fun (_ : List Int) (_ : Int) => [(9 : Int)]) [3] 0 = [9]) := by
  refine ⟨?_, by decide, by decide⟩
  intro O A S L I _ _ predict1 predict2 policy term src lang interval opt o0 rs
  rfl

end ComDe
